import Mathlib

/-!
Shallow embedding of the notification dispatch core of the repository
(`src/notifications/NotificationQueue.ts` and
`src/notifications/NotificationService.ts`).

Modelling conventions:
* The runtime is single-process cooperative async; the queue serializes all
  drains through a chained continuation (`processingLock`), so one drain runs
  at a time and every `enqueue` awaits the full drain it triggered.  We model
  this sequential semantics directly: `enqueue` appends and then runs the
  drain loop to completion (driven by explicit fuel, since Lean requires a
  termination argument for the `while` loop).
* JS `Map` preserves insertion order, updates a present key in place and
  appends an absent key at the end; `Map.delete` removes the key.  We model a
  map as an association list with those exact operations (`mapFind`,
  `mapSet`, `mapDel`).  JS `Set` is modelled as a list queried with `setHas`
  (iteration order of `processedIds` is never observed by the code).
* `Date.now()` / `new Date()` are modelled by an explicit `now : Nat`
  parameter.
* A value thrown by the delivery function is modelled as
  `ProcResult.err (msg : Option String)`: `some m` is an `Error` whose
  `.message` is `m`, `none` is a non-`Error` throwable (the code branches on
  `error instanceof Error`).
* `notifLog` records the results passed to `notifyListenersAsync` (one entry
  per scheduled listener-notification round); `procLog` records the id of the
  notification passed to the `processor` at each invocation, in call order.
  Both are proof instrumentation for counting; the code does not store them.
-/

/-- Notification['type'] from `types.ts`: 'alert' | 'info' | 'warning' | 'critical'. -/
inductive NotificationType where
  | alert
  | info
  | warning
  | critical
deriving DecidableEq, Repr

/-- Notification record from `types.ts` (metadata is unused by the queue and omitted). -/
structure Notification where
  id : String
  userId : String
  message : String
  type : NotificationType
  priority : Int
  createdAt : Nat
deriving DecidableEq, Repr

/-- NotificationResult record from `types.ts`. -/
structure NotificationResult where
  success : Bool
  notificationId : String
  timestamp : Nat
  error : Option String
deriving DecidableEq, Repr

/-- Value stored in `resultCache`: `{ result, timestamp: Date.now() }`. -/
structure CacheEntry where
  result : NotificationResult
  timestamp : Nat
deriving DecidableEq, Repr

/-- Outcome of one call of the pluggable delivery function (`processor`):
either a returned boolean or a thrown value. -/
inductive ProcResult where
  | ok (success : Bool)
  | err (msg : Option String)
deriving DecidableEq, Repr

/-- Error message recorded on a terminal failure:
`error instanceof Error ? error.message : 'Unknown error'`. -/
def errString (m : Option String) : String := m.getD "Unknown error"

def maxRetries : Nat := 3

def MAX_CACHE_SIZE : Nat := 10000

def CACHE_TTL_MS : Nat := 3600000

/-- Lookup in an insertion-ordered JS `Map`. -/
def mapFind {β : Type} : List (String × β) → String → Option β
  | [], _ => none
  | (k, v) :: rest, key => if k = key then some v else mapFind rest key

/-- In-place update of every entry stored under `key` (keys are unique in a
JS `Map`, so at most one entry is touched). -/
def mapReplace {β : Type} : List (String × β) → String → β → List (String × β)
  | [], _, _ => []
  | (k, w) :: rest, key, v =>
      if k = key then (key, v) :: mapReplace rest key v
      else (k, w) :: mapReplace rest key v

/-- JS `Map.set`: update a present key in place, append an absent key. -/
def mapSet {β : Type} (m : List (String × β)) (key : String) (v : β) :
    List (String × β) :=
  if (mapFind m key).isSome then mapReplace m key v else m ++ [(key, v)]

/-- JS `Map.delete`. -/
def mapDel {β : Type} : List (String × β) → String → List (String × β)
  | [], _ => []
  | (k, v) :: rest, key =>
      if k = key then mapDel rest key else (k, v) :: mapDel rest key

/-- Read of the retry counter: `retryCountPerNotification.get(id) || 0`. -/
def mapGet (m : List (String × Nat)) (key : String) : Nat :=
  (mapFind m key).getD 0

/-- JS `Set.has`. -/
def setHas : List String → String → Bool
  | [], _ => false
  | x :: xs, key => if x = key then true else setHas xs key

/-- JS `Set.add` (position in the set is never observed by the code). -/
def setInsert (s : List String) (key : String) : List String :=
  if setHas s key then s else key :: s

/-- JS `Set.delete`. -/
def setErase : List String → String → List String
  | [], _ => []
  | x :: xs, key => if x = key then setErase xs key else x :: setErase xs key

/-- State of one `NotificationQueue` instance.  `processing` and
`processingLock` only serialize drains and have no residual content in the
sequential model; the listener set is not modelled (claims only count the
scheduled notification rounds, recorded in `notifLog`). -/
structure QState where
  queue : List Notification
  processedIds : List String
  retryCounts : List (String × Nat)
  resultCache : List (String × CacheEntry)
  notifLog : List NotificationResult
  procLog : List String
deriving DecidableEq, Repr

/-- Queue state of a freshly constructed `NotificationQueue`. -/
def initState : QState :=
  { queue := [], processedIds := [], retryCounts := [],
    resultCache := [], notifLog := [], procLog := [] }

/-- `cacheResult` (NotificationQueue.ts lines 109-117): at capacity delete
the oldest-inserted key — `keys().next().value` is the first key in insertion
order, and the `if (oldestKey)` guard skips the delete when that key is the
empty string (falsy) — then `Map.set` the new entry. -/
def cacheResult (now : Nat) (cache : List (String × CacheEntry))
    (notificationId : String) (r : NotificationResult) :
    List (String × CacheEntry) :=
  let cache1 :=
    if MAX_CACHE_SIZE ≤ cache.length then
      match cache with
      | [] => cache
      | (oldestKey, _) :: rest => if oldestKey = "" then cache else rest
    else cache
  mapSet cache1 notificationId { result := r, timestamp := now }

/-- `cleanupCache` (lines 131-138): delete every entry with
`now - value.timestamp > CACHE_TTL_MS`. -/
def cleanupCache (now : Nat) :
    List (String × CacheEntry) → List (String × CacheEntry)
  | [] => []
  | (k, e) :: rest =>
      if CACHE_TTL_MS < now - e.timestamp then cleanupCache now rest
      else (k, e) :: cleanupCache now rest

/-- One iteration of the `while (this.queue.length > 0)` drain loop
(lines 60-99): shift the head item, drop it if its id is already processed,
otherwise claim ownership, invoke the processor and handle the three
outcomes (returned boolean / thrown with retries left / thrown exhausted).
`proc` receives the index of the invocation (number of prior processor
calls), which lets a theorem quantify over arbitrary delivery behaviour. -/
def processOne (proc : Nat → Notification → ProcResult) (now : Nat)
    (st : QState) : QState :=
  match st.queue with
  | [] => st
  | n :: rest =>
    if setHas st.processedIds n.id then
      { st with queue := rest }
    else
      let processed := setInsert st.processedIds n.id
      let retryCount := mapGet st.retryCounts n.id
      match proc st.procLog.length n with
      | ProcResult.ok success =>
          let r : NotificationResult :=
            { success := success, notificationId := n.id,
              timestamp := now, error := none }
          { queue := rest, processedIds := processed,
            retryCounts := st.retryCounts,
            resultCache := cacheResult now st.resultCache n.id r,
            notifLog := st.notifLog ++ [r],
            procLog := st.procLog ++ [n.id] }
      | ProcResult.err m =>
          if retryCount < maxRetries then
            { queue := rest ++ [n],
              processedIds := setErase processed n.id,
              retryCounts := mapSet st.retryCounts n.id (retryCount + 1),
              resultCache := st.resultCache,
              notifLog := st.notifLog,
              procLog := st.procLog ++ [n.id] }
          else
            let r : NotificationResult :=
              { success := false, notificationId := n.id,
                timestamp := now, error := some (errString m) }
            { queue := rest, processedIds := processed,
              retryCounts := mapDel st.retryCounts n.id,
              resultCache := cacheResult now st.resultCache n.id r,
              notifLog := st.notifLog ++ [r],
              procLog := st.procLog ++ [n.id] }

/-- The drain loop `processQueue`, with explicit fuel standing in for the
termination measure of the `while` loop. -/
def drainAux (proc : Nat → Notification → ProcResult) (now : Nat) :
    Nat → QState → QState
  | 0, st => st
  | fuel + 1, st =>
      if st.queue.isEmpty then st
      else drainAux proc now fuel (processOne proc now st)

/-- `enqueue` (lines 28-39): throw on a missing required field (the falsy
check on a `string` field is an empty-string check), silently return when the
id is already in `processedIds`, otherwise push and await the drain. -/
def enqueue (proc : Nat → Notification → ProcResult) (now : Nat) (fuel : Nat)
    (st : QState) (n : Notification) : Except String QState :=
  if n.id = "" ∨ n.userId = "" ∨ n.message = "" then
    Except.error "Invalid notification: missing required fields"
  else if setHas st.processedIds n.id then
    Except.ok st
  else
    Except.ok (drainAux proc now fuel { st with queue := st.queue ++ [n] })

/-- Stable insertion used to model the JS stable `Array.prototype.sort` with
comparator `(a, b) => b.priority - a.priority`: in the sorted output an
element precedes another iff its priority is strictly greater, or the
priorities tie and it occurred earlier in the input.  A stable sort's output
is uniquely determined by the comparator, so insertion sort is an exact model
of the engine's sort. -/
def insertByPriority (x : Notification) :
    List Notification → List Notification
  | [] => [x]
  | y :: ys =>
      if y.priority ≤ x.priority then x :: y :: ys
      else y :: insertByPriority x ys

/-- Model of `[...notifications].sort((a, b) => b.priority - a.priority)`. -/
def sortByPriority : List Notification → List Notification
  | [] => []
  | x :: xs => insertByPriority x (sortByPriority xs)

/-- The filtering loop of `enqueueBatch`: `if (!notification || !notification.id) continue`
(elements are typed non-null; the observable guard is the empty-id check). -/
def keepValid : List Notification → List Notification
  | [] => []
  | n :: rest => if n.id = "" then keepValid rest else n :: keepValid rest

/-- The synchronous phase of `enqueueBatch` (lines 41-47): sort a spread copy
of the caller's array, then push each entry that passes the guard.  The first
component of the result is the caller's array as the call leaves it: the code
sorts `[...notifications]`, a copy, so the caller's array is returned
untouched. -/
def enqueueBatchAppend (st : QState) (input : List Notification) :
    List Notification × QState :=
  let sorted := sortByPriority input
  (input, { st with queue := st.queue ++ keepValid sorted })

/-- `enqueueBatch` (lines 41-50): the append phase followed by one awaited drain. -/
def enqueueBatch (proc : Nat → Notification → ProcResult) (now : Nat)
    (fuel : Nat) (st : QState) (input : List Notification) :
    List Notification × QState :=
  let appended := enqueueBatchAppend st input
  (appended.1, drainAux proc now fuel appended.2)

/-- `getResult` (lines 140-143). -/
def getResult (st : QState) (notificationId : String) :
    Option NotificationResult :=
  match mapFind st.resultCache notificationId with
  | some e => some e.result
  | none => none

/-- `getQueueSize` (lines 145-147). -/
def getQueueSize (st : QState) : Nat := st.queue.length

/-- `clearCache` (lines 149-153): clears the result cache, the processed-id
set and the retry-counter map; the pending queue (and the listener set) are
untouched. -/
def clearCache (st : QState) : QState :=
  { st with resultCache := [], processedIds := [], retryCounts := [] }

/-! ### Counting instrumentation -/

/-- Number of items in a pending list whose id is `i`. -/
def occL (i : String) : List Notification → Nat
  | [] => 0
  | n :: rest => (if n.id = i then 1 else 0) + occL i rest

/-- Number of processor invocations recorded for id `i`. -/
def cnt (i : String) : List String → Nat
  | [] => 0
  | x :: rest => (if x = i then 1 else 0) + cnt i rest

/-- Number of cache entries stored under key `k`. -/
def keyCount {β : Type} (k : String) : List (String × β) → Nat
  | [] => 0
  | p :: rest => (if p.1 = k then 1 else 0) + keyCount k rest

/-- Number of scheduled listener notifications carrying id `i`. -/
def nidCount (i : String) : List NotificationResult → Nat
  | [] => 0
  | r :: rest => (if r.notificationId = i then 1 else 0) + nidCount i rest

/-! ### Association-list and set lemmas -/

theorem mapFind_replace_self {β : Type} (m : List (String × β)) (key : String)
    (v : β) (h : (mapFind m key).isSome) :
    mapFind (mapReplace m key v) key = some v := by
  induction m with
  | nil => simp [mapFind] at h
  | cons hd tl ih =>
    obtain ⟨k, w⟩ := hd
    by_cases hk : k = key
    · simp [mapReplace, hk, mapFind]
    · have h' : (mapFind tl key).isSome := by simpa [mapFind, hk] using h
      simp [mapReplace, mapFind, hk, ih h']

theorem mapFind_replace_ne {β : Type} (m : List (String × β)) (key i : String)
    (v : β) (h : i ≠ key) :
    mapFind (mapReplace m key v) i = mapFind m i := by
  induction m with
  | nil => simp [mapReplace]
  | cons hd tl ih =>
    obtain ⟨k, w⟩ := hd
    by_cases hk : k = key
    · subst hk
      simp [mapReplace, mapFind, Ne.symm h, ih]
    · by_cases hi : k = i
      · subst hi
        simp [mapReplace, mapFind, hk]
      · simp [mapReplace, mapFind, hk, hi, ih]

theorem mapFind_append_right {β : Type} (m : List (String × β)) (key : String)
    (v : β) (h : mapFind m key = none) :
    mapFind (m ++ [(key, v)]) key = some v := by
  induction m with
  | nil => simp [mapFind]
  | cons hd tl ih =>
    obtain ⟨k, w⟩ := hd
    by_cases hk : k = key
    · simp [mapFind, hk] at h
    · simp [mapFind, hk] at h ⊢
      exact ih h

theorem mapFind_set_self {β : Type} (m : List (String × β)) (key : String)
    (v : β) : mapFind (mapSet m key v) key = some v := by
  unfold mapSet
  by_cases h : (mapFind m key).isSome
  · simp only [if_pos h]
    exact mapFind_replace_self m key v h
  · simp only [if_neg h]
    exact mapFind_append_right m key v (by
      cases hm : mapFind m key with
      | none => rfl
      | some w => simp [hm] at h)

theorem mapFind_set_ne {β : Type} (m : List (String × β)) (key i : String)
    (v : β) (h : i ≠ key) : mapFind (mapSet m key v) i = mapFind m i := by
  unfold mapSet
  by_cases hs : (mapFind m key).isSome
  · simp only [if_pos hs]
    exact mapFind_replace_ne m key i v h
  · simp only [if_neg hs]
    clear hs
    induction m with
    | nil => simp [mapFind, Ne.symm h]
    | cons hd tl ih =>
      obtain ⟨k, w⟩ := hd
      by_cases hi : k = i <;> simp [mapFind, hi, ih]

theorem mapGet_set_self (m : List (String × Nat)) (key : String) (v : Nat) :
    mapGet (mapSet m key v) key = v := by
  simp [mapGet, mapFind_set_self]

theorem mapGet_set_ne (m : List (String × Nat)) (key i : String) (v : Nat)
    (h : i ≠ key) : mapGet (mapSet m key v) i = mapGet m i := by
  simp [mapGet, mapFind_set_ne m key i v h]

theorem mapFind_del_self {β : Type} (m : List (String × β)) (key : String) :
    mapFind (mapDel m key) key = none := by
  induction m with
  | nil => simp [mapDel, mapFind]
  | cons hd tl ih =>
    by_cases hk : hd.1 = key
    · cases hd; simp_all [mapDel]
    · cases hd; simp_all [mapDel, mapFind]

theorem mapFind_del_ne {β : Type} (m : List (String × β)) (key i : String)
    (h : i ≠ key) : mapFind (mapDel m key) i = mapFind m i := by
  induction m with
  | nil => simp [mapDel]
  | cons hd tl ih =>
    obtain ⟨k, w⟩ := hd
    by_cases hk : k = key
    · subst hk
      simp [mapDel, mapFind, Ne.symm h, ih]
    · by_cases hi : k = i
      · subst hi
        simp [mapDel, mapFind, hk]
      · simp [mapDel, mapFind, hk, hi, ih]

theorem mapGet_del_ne (m : List (String × Nat)) (key i : String)
    (h : i ≠ key) : mapGet (mapDel m key) i = mapGet m i := by
  simp [mapGet, mapFind_del_ne m key i h]

theorem setHas_insert_self (s : List String) (key : String) :
    setHas (setInsert s key) key = true := by
  unfold setInsert
  by_cases h : setHas s key
  · simp [h]
  · simp [h, setHas]

theorem setHas_insert_ne (s : List String) (key i : String) (h : i ≠ key) :
    setHas (setInsert s key) i = setHas s i := by
  unfold setInsert
  by_cases hs : setHas s key
  · simp [hs]
  · simp [hs, setHas, Ne.symm h]

theorem setHas_erase_self (s : List String) (key : String) :
    setHas (setErase s key) key = false := by
  induction s with
  | nil => simp [setErase, setHas]
  | cons hd tl ih =>
    by_cases hk : hd = key
    · simp [setErase, hk, ih]
    · simp [setErase, hk, setHas, ih]

theorem setHas_erase_ne (s : List String) (key i : String) (h : i ≠ key) :
    setHas (setErase s key) i = setHas s i := by
  induction s with
  | nil => simp [setErase]
  | cons hd tl ih =>
    by_cases hk : hd = key
    · subst hk
      simp [setErase, setHas, Ne.symm h, ih]
    · by_cases hi : hd = i
      · subst hi
        simp [setErase, setHas, hk]
      · simp [setErase, setHas, hk, hi, ih]

theorem mapReplace_length {β : Type} (m : List (String × β)) (key : String)
    (v : β) : (mapReplace m key v).length = m.length := by
  induction m with
  | nil => simp [mapReplace]
  | cons hd tl ih =>
    obtain ⟨k, w⟩ := hd
    by_cases hk : k = key <;> simp [mapReplace, hk, ih]

theorem mapSet_length_le {β : Type} (m : List (String × β)) (key : String)
    (v : β) : (mapSet m key v).length ≤ m.length + 1 := by
  unfold mapSet
  by_cases h : (mapFind m key).isSome
  · simp [if_pos h, mapReplace_length]
  · simp [if_neg h]

theorem keyCount_append {β : Type} (k : String) (a b : List (String × β)) :
    keyCount k (a ++ b) = keyCount k a + keyCount k b := by
  induction a with
  | nil => simp [keyCount]
  | cons hd tl ih => simp [keyCount, ih]; omega

theorem keyCount_eq_zero_of_find_none {β : Type} (m : List (String × β))
    (k : String) (h : mapFind m k = none) : keyCount k m = 0 := by
  induction m with
  | nil => simp [keyCount]
  | cons hd tl ih =>
    by_cases hk : hd.1 = k
    · simp [mapFind, hk] at h
    · simp [mapFind, hk] at h
      simp [keyCount, hk, ih h]

theorem nidCount_append (i : String) (a b : List NotificationResult) :
    nidCount i (a ++ b) = nidCount i a + nidCount i b := by
  induction a with
  | nil => simp [nidCount]
  | cons hd tl ih => simp [nidCount, ih]; omega

theorem cnt_append_single (i : String) (l : List String) (x : String) :
    cnt i (l ++ [x]) = cnt i l + (if x = i then 1 else 0) := by
  induction l with
  | nil => simp [cnt]
  | cons hd tl ih => simp [cnt, ih]; omega

theorem occL_append_single (i : String) (l : List Notification)
    (n : Notification) :
    occL i (l ++ [n]) = occL i l + (if n.id = i then 1 else 0) := by
  induction l with
  | nil => simp [occL]
  | cons hd tl ih => simp [occL, ih]; omega

/-! ### Drain-loop lemmas -/

theorem cacheResult_small (now : Nat) (cache : List (String × CacheEntry))
    (id : String) (r : NotificationResult)
    (hfind : mapFind cache id = none)
    (hlen : cache.length < MAX_CACHE_SIZE) :
    cacheResult now cache id r =
      cache ++ [(id, { result := r, timestamp := now })] := by
  unfold cacheResult
  have hcap : ¬ MAX_CACHE_SIZE ≤ cache.length := by omega
  simp only [if_neg hcap]
  unfold mapSet
  simp [hfind]

theorem mapFind_cacheResult_self (now : Nat)
    (cache : List (String × CacheEntry)) (id : String)
    (r : NotificationResult) :
    mapFind (cacheResult now cache id r) id =
      some { result := r, timestamp := now } := by
  unfold cacheResult
  exact mapFind_set_self _ id _

theorem drain_empty (proc : Nat → Notification → ProcResult) (now fuel : Nat)
    (st : QState) (h : st.queue = []) : drainAux proc now fuel st = st := by
  cases fuel with
  | zero => rfl
  | succ f => simp [drainAux, h]

/-- Full behaviour of one drain on a queue holding a single fresh item:
the drain empties the queue, leaves the identity owned, appends exactly one
terminal entry to the result cache and schedules exactly one listener
notification, for every possible behaviour of the delivery function. -/
theorem drain_single (proc : Nat → Notification → ProcResult) (now : Nat) :
    ∀ (fuel k : Nat) (st : QState) (n : Notification),
    st.queue = [n] → setHas st.processedIds n.id = false →
    mapGet st.retryCounts n.id = k → k ≤ maxRetries →
    maxRetries + 1 - k ≤ fuel →
    mapFind st.resultCache n.id = none →
    st.resultCache.length < MAX_CACHE_SIZE →
    ∃ e : CacheEntry,
      (drainAux proc now fuel st).queue = [] ∧
      setHas (drainAux proc now fuel st).processedIds n.id = true ∧
      (drainAux proc now fuel st).resultCache =
        st.resultCache ++ [(n.id, e)] ∧
      e.result.notificationId = n.id ∧
      (drainAux proc now fuel st).notifLog = st.notifLog ++ [e.result] := by
  intro fuel
  induction fuel with
  | zero =>
    intro k st n hq hp hr hk hf hc hlen
    exfalso
    simp [maxRetries] at hk hf
    omega
  | succ f ih =>
    intro k st n hq hp hr hk hf hc hlen
    have hne : st.queue.isEmpty = false := by simp [hq]
    rw [drainAux, if_neg (by simp [hne])]
    cases hpr : proc st.procLog.length n with
    | ok b =>
      have hstep : processOne proc now st =
          { queue := [], processedIds := setInsert st.processedIds n.id,
            retryCounts := st.retryCounts,
            resultCache := cacheResult now st.resultCache n.id
              { success := b, notificationId := n.id,
                timestamp := now, error := none },
            notifLog := st.notifLog ++
              [{ success := b, notificationId := n.id,
                 timestamp := now, error := none }],
            procLog := st.procLog ++ [n.id] } := by
        simp [processOne, hq, hp, hpr]
      rw [hstep, drain_empty proc now f _ rfl]
      refine ⟨{ result := { success := b, notificationId := n.id,
                            timestamp := now, error := none },
                timestamp := now }, rfl, setHas_insert_self _ _, ?_, rfl, rfl⟩
      exact cacheResult_small now st.resultCache n.id _ hc hlen
    | err m =>
      by_cases hlt : k < maxRetries
      · have hstep : processOne proc now st =
            { queue := [n],
              processedIds := setErase (setInsert st.processedIds n.id) n.id,
              retryCounts := mapSet st.retryCounts n.id (k + 1),
              resultCache := st.resultCache,
              notifLog := st.notifLog,
              procLog := st.procLog ++ [n.id] } := by
          simp [processOne, hq, hp, hpr, hr, hlt]
        rw [hstep]
        exact ih (k + 1)
          { queue := [n],
            processedIds := setErase (setInsert st.processedIds n.id) n.id,
            retryCounts := mapSet st.retryCounts n.id (k + 1),
            resultCache := st.resultCache,
            notifLog := st.notifLog,
            procLog := st.procLog ++ [n.id] } n rfl
          (setHas_erase_self _ _) (mapGet_set_self _ _ _) (by omega)
          (by simp [maxRetries] at hf ⊢; omega) hc hlen
      · have hstep : processOne proc now st =
            { queue := [], processedIds := setInsert st.processedIds n.id,
              retryCounts := mapDel st.retryCounts n.id,
              resultCache := cacheResult now st.resultCache n.id
                { success := false, notificationId := n.id,
                  timestamp := now, error := some (errString m) },
              notifLog := st.notifLog ++
                [{ success := false, notificationId := n.id,
                   timestamp := now, error := some (errString m) }],
              procLog := st.procLog ++ [n.id] } := by
          simp [processOne, hq, hp, hpr, hr, hlt]
        rw [hstep, drain_empty proc now f _ rfl]
        refine ⟨{ result := { success := false, notificationId := n.id,
                              timestamp := now, error := some (errString m) },
                  timestamp := now }, rfl, setHas_insert_self _ _, ?_, rfl, rfl⟩
        exact cacheResult_small now st.resultCache n.id _ hc hlen

/-! ### Per-identity retry-budget invariant -/

/-- Invariant describing the lifecycle of one submitted identity `i`: either
the item is live (exactly one copy pending, not owned, and the number of
processor invocations so far equals its retry counter, which is within
budget), or it has reached a terminal outcome (no copy pending and at most
`maxRetries + 1` invocations ever happened). -/
def prOneInv (i : String) (st : QState) : Prop :=
  (occL i st.queue = 1 ∧ setHas st.processedIds i = false ∧
    cnt i st.procLog = mapGet st.retryCounts i ∧
    mapGet st.retryCounts i ≤ maxRetries)
  ∨ (occL i st.queue = 0 ∧ cnt i st.procLog ≤ maxRetries + 1)

theorem processOne_preserves_inv
    (proc : Nat → Notification → ProcResult) (now : Nat) (i : String)
    (st : QState) (h : prOneInv i st) :
    prOneInv i (processOne proc now st) := by
  cases hq : st.queue with
  | nil =>
    have : processOne proc now st = st := by simp [processOne, hq]
    rwa [this]
  | cons n rest =>
    by_cases hp : setHas st.processedIds n.id
    · have hstep : processOne proc now st = { st with queue := rest } := by
        simp [processOne, hq, hp]
      rw [hstep]
      by_cases hni : n.id = i
      · rcases h with ⟨h1, h2, h3, h4⟩ | ⟨h1, h2⟩
        · rw [hni] at hp
          rw [hp] at h2
          exact absurd h2 (by simp)
        · rw [hq] at h1
          simp [occL, hni] at h1
      · rcases h with ⟨h1, h2, h3, h4⟩ | ⟨h1, h2⟩
        · left
          rw [hq] at h1
          simp only [occL, if_neg hni, Nat.zero_add] at h1
          exact ⟨h1, h2, h3, h4⟩
        · right
          rw [hq] at h1
          simp only [occL, if_neg hni, Nat.zero_add] at h1
          exact ⟨h1, h2⟩
    · cases hpr : proc st.procLog.length n with
      | ok b =>
        have hstep : processOne proc now st =
            { queue := rest, processedIds := setInsert st.processedIds n.id,
              retryCounts := st.retryCounts,
              resultCache := cacheResult now st.resultCache n.id
                { success := b, notificationId := n.id,
                  timestamp := now, error := none },
              notifLog := st.notifLog ++
                [{ success := b, notificationId := n.id,
                   timestamp := now, error := none }],
              procLog := st.procLog ++ [n.id] } := by
          simp [processOne, hq, hp, hpr]
        rw [hstep]
        by_cases hni : n.id = i
        · rcases h with ⟨h1, h2, h3, h4⟩ | ⟨h1, h2⟩
          · right
            rw [hq] at h1
            simp only [occL, if_pos hni] at h1
            constructor
            · simpa using h1
            · simp only [cnt_append_single, if_pos hni]
              omega
          · rw [hq] at h1
            simp [occL, hni] at h1
        · rcases h with ⟨h1, h2, h3, h4⟩ | ⟨h1, h2⟩
          · left
            rw [hq] at h1
            simp only [occL, if_neg hni, Nat.zero_add] at h1
            refine ⟨h1, ?_, ?_, h4⟩
            · simpa [setHas_insert_ne _ _ _ (Ne.symm hni)] using h2
            · simpa [cnt_append_single, if_neg hni] using h3
          · right
            rw [hq] at h1
            simp only [occL, if_neg hni, Nat.zero_add] at h1
            refine ⟨h1, ?_⟩
            simpa [cnt_append_single, if_neg hni] using h2
      | err m =>
        by_cases hlt : mapGet st.retryCounts n.id < maxRetries
        · have hstep : processOne proc now st =
              { queue := rest ++ [n],
                processedIds := setErase (setInsert st.processedIds n.id) n.id,
                retryCounts :=
                  mapSet st.retryCounts n.id (mapGet st.retryCounts n.id + 1),
                resultCache := st.resultCache,
                notifLog := st.notifLog,
                procLog := st.procLog ++ [n.id] } := by
            simp [processOne, hq, hp, hpr, hlt]
          rw [hstep]
          by_cases hni : n.id = i
          · rcases h with ⟨h1, h2, h3, h4⟩ | ⟨h1, h2⟩
            · left
              rw [hq] at h1
              simp only [occL, if_pos hni] at h1
              refine ⟨?_, ?_, ?_, ?_⟩
              · simp only [occL_append_single, if_pos hni]
                omega
              · rw [← hni]
                exact setHas_erase_self _ _
              · rw [← hni, mapGet_set_self, cnt_append_single]
                rw [← hni] at h3
                simp [h3]
              · rw [← hni, mapGet_set_self]
                omega
            · rw [hq] at h1
              simp [occL, hni] at h1
          · rcases h with ⟨h1, h2, h3, h4⟩ | ⟨h1, h2⟩
            · left
              rw [hq] at h1
              simp only [occL, if_neg hni, Nat.zero_add] at h1
              refine ⟨?_, ?_, ?_, ?_⟩
              · simp only [occL_append_single, if_neg hni]
                omega
              · rw [setHas_erase_ne _ _ _ (Ne.symm hni),
                    setHas_insert_ne _ _ _ (Ne.symm hni)]
                exact h2
              · rw [mapGet_set_ne _ _ _ _ (Ne.symm hni), cnt_append_single]
                simp only [if_neg hni]
                omega
              · rw [mapGet_set_ne _ _ _ _ (Ne.symm hni)]
                exact h4
            · right
              rw [hq] at h1
              simp only [occL, if_neg hni, Nat.zero_add] at h1
              refine ⟨?_, ?_⟩
              · simp only [occL_append_single, if_neg hni]
                omega
              · rw [cnt_append_single]
                simp only [if_neg hni]
                omega
        · have hstep : processOne proc now st =
              { queue := rest, processedIds := setInsert st.processedIds n.id,
                retryCounts := mapDel st.retryCounts n.id,
                resultCache := cacheResult now st.resultCache n.id
                  { success := false, notificationId := n.id,
                    timestamp := now, error := some (errString m) },
                notifLog := st.notifLog ++
                  [{ success := false, notificationId := n.id,
                     timestamp := now, error := some (errString m) }],
                procLog := st.procLog ++ [n.id] } := by
            simp [processOne, hq, hp, hpr, hlt]
          rw [hstep]
          by_cases hni : n.id = i
          · rcases h with ⟨h1, h2, h3, h4⟩ | ⟨h1, h2⟩
            · right
              rw [hq] at h1
              simp only [occL, if_pos hni] at h1
              constructor
              · simpa using h1
              · rw [cnt_append_single]
                simp only [if_pos hni]
                omega
            · rw [hq] at h1
              simp [occL, hni] at h1
          · rcases h with ⟨h1, h2, h3, h4⟩ | ⟨h1, h2⟩
            · left
              rw [hq] at h1
              simp only [occL, if_neg hni, Nat.zero_add] at h1
              refine ⟨h1, ?_, ?_, ?_⟩
              · simpa [setHas_insert_ne _ _ _ (Ne.symm hni)] using h2
              · rw [mapGet_del_ne _ _ _ (Ne.symm hni), cnt_append_single]
                simp only [if_neg hni]
                omega
              · rw [mapGet_del_ne _ _ _ (Ne.symm hni)]
                exact h4
            · right
              rw [hq] at h1
              simp only [occL, if_neg hni, Nat.zero_add] at h1
              refine ⟨h1, ?_⟩
              rw [cnt_append_single]
              simp only [if_neg hni]
              omega

theorem drainAux_preserves_inv
    (proc : Nat → Notification → ProcResult) (now : Nat) (i : String) :
    ∀ (fuel : Nat) (st : QState), prOneInv i st →
      prOneInv i (drainAux proc now fuel st) := by
  intro fuel
  induction fuel with
  | zero => intro st h; exact h
  | succ f ih =>
    intro st h
    rw [drainAux]
    by_cases hq : st.queue.isEmpty
    · simpa [hq] using h
    · simp only [hq, if_false]
      exact ih _ (processOne_preserves_inv proc now i st h)

/-! ### Stable-sort lemmas for enqueueBatch -/

/-- Descending-priority ordering produced by the comparator
`(a, b) => b.priority - a.priority`. -/
def prDesc (a b : Notification) : Prop := b.priority ≤ a.priority

theorem mem_insertByPriority (x z : Notification) :
    ∀ l : List Notification,
      z ∈ insertByPriority x l ↔ z = x ∨ z ∈ l := by
  intro l
  induction l with
  | nil => simp [insertByPriority]
  | cons y ys ih =>
    by_cases hc : y.priority ≤ x.priority
    · simp [insertByPriority, hc]
    · simp [insertByPriority, hc, ih]
      tauto

theorem insertByPriority_perm (x : Notification) (l : List Notification) :
    List.Perm (insertByPriority x l) (x :: l) := by
  induction l with
  | nil => simp [insertByPriority]
  | cons y ys ih =>
    by_cases hc : y.priority ≤ x.priority
    · simp [insertByPriority, hc]
    · simp only [insertByPriority, if_neg hc]
      exact (ih.cons y).trans (List.Perm.swap x y ys)

theorem pairwise_insertByPriority (x : Notification) :
    ∀ l : List Notification, List.Pairwise prDesc l →
      List.Pairwise prDesc (insertByPriority x l) := by
  intro l
  induction l with
  | nil => simp [insertByPriority, List.Pairwise]
  | cons y ys ih =>
    intro h
    rw [List.pairwise_cons] at h
    obtain ⟨hall, hys⟩ := h
    by_cases hc : y.priority ≤ x.priority
    · simp only [insertByPriority, if_pos hc]
      rw [List.pairwise_cons]
      refine ⟨?_, List.pairwise_cons.mpr ⟨hall, hys⟩⟩
      intro z hz
      rcases List.mem_cons.mp hz with rfl | hz'
      · exact hc
      · exact le_trans (hall z hz') hc
    · simp only [insertByPriority, if_neg hc]
      rw [List.pairwise_cons]
      refine ⟨?_, ih hys⟩
      intro z hz
      rcases (mem_insertByPriority x z ys).mp hz with rfl | hz'
      · exact le_of_lt (lt_of_not_le hc)
      · exact hall z hz'

theorem sortByPriority_perm (l : List Notification) :
    List.Perm (sortByPriority l) l := by
  induction l with
  | nil => simp [sortByPriority]
  | cons x xs ih =>
    exact (insertByPriority_perm x (sortByPriority xs)).trans (ih.cons x)

theorem sortByPriority_pairwise (l : List Notification) :
    List.Pairwise prDesc (sortByPriority l) := by
  induction l with
  | nil => simp [sortByPriority]
  | cons x xs ih => exact pairwise_insertByPriority x (sortByPriority xs) ih

/-- Entries of a given priority, in list order. -/
def prFilter (p : Int) : List Notification → List Notification
  | [] => []
  | n :: rest =>
      if n.priority = p then n :: prFilter p rest else prFilter p rest

theorem prFilter_insertByPriority (p : Int) (x : Notification) :
    ∀ l : List Notification,
      prFilter p (insertByPriority x l) =
        if x.priority = p then x :: prFilter p l else prFilter p l := by
  intro l
  induction l with
  | nil => simp [insertByPriority, prFilter]
  | cons y ys ih =>
    by_cases hc : y.priority ≤ x.priority
    · simp [insertByPriority, hc, prFilter]
    · simp only [insertByPriority, if_neg hc, prFilter]
      by_cases hx : x.priority = p
      · have hy : ¬ y.priority = p := by
          intro hy
          exact hc (le_of_eq (hy.trans hx.symm))
        simp [hx, hy, ih]
      · by_cases hy : y.priority = p <;> simp [hx, hy, ih]

/-- Stability of the batch sort: among entries of equal priority the sorted
copy preserves the arrival order of the input. -/
theorem sortByPriority_stable (p : Int) (l : List Notification) :
    prFilter p (sortByPriority l) = prFilter p l := by
  induction l with
  | nil => simp [sortByPriority]
  | cons x xs ih =>
    simp only [sortByPriority, prFilter_insertByPriority, ih, prFilter]

theorem keepValid_eq_filter (l : List Notification) :
    keepValid l = l.filter (fun n => decide (n.id ≠ "")) := by
  induction l with
  | nil => simp [keepValid]
  | cons n rest ih =>
    by_cases h : n.id = "" <;> simp [keepValid, h, ih]

theorem mem_keepValid (z : Notification) (l : List Notification) :
    z ∈ keepValid l ↔ z ∈ l ∧ z.id ≠ "" := by
  rw [keepValid_eq_filter]
  simp

theorem keepValid_perm {l l' : List Notification} (h : List.Perm l l') :
    List.Perm (keepValid l) (keepValid l') := by
  rw [keepValid_eq_filter, keepValid_eq_filter]
  exact h.filter _

theorem pairwise_keepValid (l : List Notification)
    (h : List.Pairwise prDesc l) : List.Pairwise prDesc (keepValid l) := by
  rw [keepValid_eq_filter]
  exact h.sublist (List.filter_sublist l)

theorem prFilter_keepValid (p : Int) (l : List Notification) :
    prFilter p (keepValid l) = keepValid (prFilter p l) := by
  induction l with
  | nil => simp [prFilter, keepValid]
  | cons n rest ih =>
    by_cases hid : n.id = "" <;> by_cases hp : n.priority = p <;>
      simp [prFilter, keepValid, hid, hp, ih]

/-! ### Cache-bound lemmas -/

theorem cacheResult_length_le (now : Nat)
    (cache : List (String × CacheEntry)) (id : String)
    (r : NotificationResult) (hlen : cache.length ≤ MAX_CACHE_SIZE)
    (hkeys : ∀ p ∈ cache, p.1 ≠ "") :
    (cacheResult now cache id r).length ≤ MAX_CACHE_SIZE := by
  unfold cacheResult
  cases cache with
  | nil =>
    have hcap : ¬ MAX_CACHE_SIZE ≤ ([] : List (String × CacheEntry)).length := by
      simp [MAX_CACHE_SIZE]
    simp only [if_neg hcap]
    have h := mapSet_length_le ([] : List (String × CacheEntry)) id
      { result := r, timestamp := now }
    simp only [List.length_nil] at h
    calc (mapSet [] id { result := r, timestamp := now }).length
        ≤ 0 + 1 := h
      _ ≤ MAX_CACHE_SIZE := by simp [MAX_CACHE_SIZE]
  | cons hd rest =>
    obtain ⟨k, e⟩ := hd
    have hk : k ≠ "" := hkeys (k, e) (List.mem_cons_self _ _)
    by_cases hcap : MAX_CACHE_SIZE ≤ ((k, e) :: rest).length
    · simp only [if_pos hcap, if_neg hk]
      have h := mapSet_length_le rest id { result := r, timestamp := now }
      simp only [List.length_cons] at hcap hlen
      omega
    · simp only [if_neg hcap]
      have h := mapSet_length_le ((k, e) :: rest) id
        { result := r, timestamp := now }
      omega

/-- At capacity with a nonempty oldest key, `cacheResult` drops the
oldest-inserted entry before inserting. -/
theorem cacheResult_at_capacity (now : Nat) (k : String) (e : CacheEntry)
    (rest : List (String × CacheEntry)) (id : String)
    (r : NotificationResult) (hk : k ≠ "")
    (hcap : MAX_CACHE_SIZE ≤ ((k, e) :: rest).length) :
    cacheResult now ((k, e) :: rest) id r =
      mapSet rest id { result := r, timestamp := now } := by
  unfold cacheResult
  simp only [if_pos hcap, if_neg hk]

theorem cleanupCache_length_le (now : Nat) :
    ∀ c : List (String × CacheEntry), (cleanupCache now c).length ≤ c.length := by
  intro c
  induction c with
  | nil => simp [cleanupCache]
  | cons hd rest ih =>
    obtain ⟨k, e⟩ := hd
    by_cases h : CACHE_TTL_MS < now - e.timestamp <;>
      simp [cleanupCache, h] <;> omega

theorem cleanupCache_removes_only_expired (now : Nat) (k : String)
    (e : CacheEntry) :
    ∀ c : List (String × CacheEntry), (k, e) ∈ c →
      (k, e) ∉ cleanupCache now c → CACHE_TTL_MS < now - e.timestamp := by
  intro c
  induction c with
  | nil => simp
  | cons hd rest ih =>
    intro hm hout
    obtain ⟨k', e'⟩ := hd
    rcases List.mem_cons.mp hm with heq | hm'
    · rw [Prod.mk.injEq] at heq
      obtain ⟨hk, he⟩ := heq
      subst hk
      subst he
      by_cases h : CACHE_TTL_MS < now - e.timestamp
      · exact h
      · exact absurd (by simp [cleanupCache, h]) hout
    · by_cases h : CACHE_TTL_MS < now - e'.timestamp
      · exact ih hm' (by simpa [cleanupCache, h] using hout)
      · refine ih hm' ?_
        simp only [cleanupCache, if_neg h] at hout
        exact fun hmem => hout (List.mem_cons_of_mem _ hmem)

theorem cleanupCache_keeps_fresh (now : Nat) (k : String) (e : CacheEntry) :
    ∀ c : List (String × CacheEntry), (k, e) ∈ c →
      now - e.timestamp ≤ CACHE_TTL_MS → (k, e) ∈ cleanupCache now c := by
  intro c
  induction c with
  | nil => simp
  | cons hd rest ih =>
    intro hm hts
    obtain ⟨k', e'⟩ := hd
    rcases List.mem_cons.mp hm with heq | hm'
    · rw [Prod.mk.injEq] at heq
      obtain ⟨hk, he⟩ := heq
      subst hk
      subst he
      have hcond : ¬ CACHE_TTL_MS < now - e.timestamp := by omega
      simp [cleanupCache, hcond]
    · by_cases h : CACHE_TTL_MS < now - e'.timestamp
      · simpa [cleanupCache, h] using ih hm' hts
      · simp only [cleanupCache, if_neg h]
        exact List.mem_cons_of_mem _ (ih hm' hts)

theorem processOne_cache_length_le (proc : Nat → Notification → ProcResult)
    (now : Nat) (st : QState)
    (hlen : st.resultCache.length ≤ MAX_CACHE_SIZE)
    (hkeys : ∀ p ∈ st.resultCache, p.1 ≠ "") :
    (processOne proc now st).resultCache.length ≤ MAX_CACHE_SIZE := by
  cases hq : st.queue with
  | nil => simpa [processOne, hq] using hlen
  | cons n rest =>
    by_cases hp : setHas st.processedIds n.id
    · simpa [processOne, hq, hp] using hlen
    · cases hpr : proc st.procLog.length n with
      | ok b =>
        simp only [processOne, hq, if_neg hp, hpr]
        exact cacheResult_length_le now st.resultCache n.id _ hlen hkeys
      | err m =>
        by_cases hlt : mapGet st.retryCounts n.id < maxRetries
        · simpa [processOne, hq, hp, hpr, hlt] using hlen
        · simp only [processOne, hq, if_neg hp, hpr, if_neg hlt]
          exact cacheResult_length_le now st.resultCache n.id _ hlen hkeys

/-! ### NotificationService: email validation and the critical path -/

/-- Whitespace class of the regex (the ASCII members of JS `\s`; the claims
and counterexamples only involve ASCII strings). -/
def isSpaceChar (c : Char) : Bool :=
  c == ' ' || c == '\t' || c == '\n' || c == '\r' || c == '\x0b' || c == '\x0c'

/-- Split of a character list at every occurrence of `c` (the splitter is
not part of any segment), as `String.prototype.split`-style decomposition. -/
def splitOnChar (c : Char) : List Char → List (List Char)
  | [] => [[]]
  | x :: xs =>
      if x = c then [] :: splitOnChar c xs
      else
        match splitOnChar c xs with
        | [] => [[x]]
        | seg :: rest => (x :: seg) :: rest

/-- `EMAIL_REGEX.test(s)` for `/^[^\s@]+@[^\s@]+\.[^\s@]+$/`: the string is
`loc ++ "@" ++ domain` with exactly one `@` (the character classes exclude
`@`), no whitespace anywhere, a nonempty local part, and the domain splits as
`m ++ "." ++ t` with `m`, `t` nonempty — with backtracking this holds exactly
when some `.` of the domain is neither its first nor its last character. -/
def emailRegexTest (s : String) : Bool :=
  match splitOnChar '@' s.data with
  | [locPart, domain] =>
      !(locPart.isEmpty) && locPart.all (fun c => !(isSpaceChar c)) &&
      domain.all (fun c => !(isSpaceChar c)) &&
      ((domain.drop 1).dropLast.contains '.')
  | _ => false

/-- Preferences shape of the consumed User entity (`types.ts`). -/
structure UserPreferences where
  notificationsEnabled : Bool
  emailFrequency : String
  channels : List String
deriving DecidableEq, Repr

/-- User entity (`types.ts`); `metadata?: Record<string, any>` is modelled as
an optional association list. -/
structure User where
  id : String
  email : String
  name : String
  preferences : Option UserPreferences
  metadata : Option (List (String × String))
deriving DecidableEq, Repr

/-- Outcome of one `emailProvider.send` call: a returned boolean or a thrown
value (`some m` = `Error` with message `m`, `none` = non-`Error`). -/
inductive SendOutcome where
  | ok (sent : Bool)
  | err (msg : Option String)
deriving DecidableEq, Repr

/-- `sendCriticalAlert` (NotificationService.ts lines 116-184).
`notificationId` stands for the `generateId()` value (random in the code).
The result triple is `(returned NotificationResult, number of
emailProvider.send invocations, the caller's user object after the call)`:
the method only reads `user` (the metadata update is built as a spread copy),
so the third component equals the argument on every path. -/
def sendCriticalAlert (send : String → String → String → SendOutcome)
    (user : Option User) (message : String) (notificationId : String)
    (now : Nat) : NotificationResult × Nat × Option User :=
  match user with
  | none =>
      ({ success := false, notificationId := notificationId,
         timestamp := now, error := some "Invalid user object provided" },
       0, none)
  | some u =>
      if u.id = "" ∨ u.email = "" then
        ({ success := false, notificationId := notificationId,
           timestamp := now, error := some "Invalid user object provided" },
         0, some u)
      else if emailRegexTest u.email = false then
        ({ success := false, notificationId := notificationId,
           timestamp := now, error := some "Invalid email address" },
         0, some u)
      else
        match send u.email "CRITICAL ALERT" message with
        | SendOutcome.ok true =>
            ({ success := true, notificationId := notificationId,
               timestamp := now, error := none }, 1, some u)
        | SendOutcome.ok false =>
            ({ success := false, notificationId := notificationId,
               timestamp := now,
               error := some "Email provider returned false" }, 1, some u)
        | SendOutcome.err m =>
            ({ success := false, notificationId := notificationId,
               timestamp := now, error := some (errString m) }, 1, some u)

/-! ### Concrete scenario material -/

/-- Projection of the `Promise` result of `enqueue`: the state after a
successful call, `none` when the call threw. -/
def okState : Except String QState → Option QState
  | Except.ok st => some st
  | Except.error _ => none

/-- The notification of the spec scenario:
`{id:"n1", userId:"u1", message:"hi", kind:"info"}`. -/
def n1 : Notification :=
  { id := "n1", userId := "u1", message := "hi",
    type := NotificationType.info, priority := 1, createdAt := 0 }

/-- Delivery function that fails (throws) twice, then succeeds. -/
def procFailTwice : Nat → Notification → ProcResult :=
  fun i _ => if i < 2 then ProcResult.err (some "delivery failed")
             else ProcResult.ok true

/-- Delivery function that returns `false` without throwing. -/
def procFalse : Nat → Notification → ProcResult :=
  fun _ _ => ProcResult.ok false

/-- Delivery function that always throws `new Error("")` (an `Error` whose
`message` is the empty string). -/
def procThrowEmpty : Nat → Notification → ProcResult :=
  fun _ _ => ProcResult.err (some "")

/-- Delivery function that throws once, then succeeds. -/
def procOnceThenOk : Nat → Notification → ProcResult :=
  fun i _ => if i = 0 then ProcResult.err (some "transient")
             else ProcResult.ok true

/-- Delivery function that always succeeds. -/
def procOk : Nat → Notification → ProcResult :=
  fun _ _ => ProcResult.ok true

/-- State with `n1` pending and nothing processed yet. -/
def stOne : QState :=
  { queue := [n1], processedIds := [], retryCounts := [],
    resultCache := [], notifLog := [], procLog := [] }

/-- State with `n1` pending and its retry budget exhausted. -/
def stExh : QState :=
  { queue := [n1], processedIds := [], retryCounts := [("n1", maxRetries)],
    resultCache := [], notifLog := [], procLog := [] }

/-- State whose processed-identity set already owns `"n1"`. -/
def stHasN1 : QState :=
  { queue := [], processedIds := ["n1"], retryCounts := [],
    resultCache := [], notifLog := [], procLog := [] }

/-! ### Claim theorems -/

/-- C1 counterexample: submitting `n1` once with a delivery function that
always throws `new Error("")` exhausts the retries (the processor runs
exactly `maxRetries + 1 = 4` times) and leaves a cached result with
`success = false` whose `error` string is present but EMPTY — refuting the
claim that `getResult` then returns a non-empty error string. -/
theorem c1_counterexample :
    (okState (enqueue procThrowEmpty 0 4 initState n1)).map
      (fun s => (s.procLog.length, getResult s "n1")) =
    some (4, some { success := false, notificationId := "n1",
                    timestamp := 0, error := some "" }) := by decide

/-- C1 (amended): for an identity submitted once (one pending copy, not
owned, no prior invocations or retry count), any run of the drain loop
invokes the delivery function at most `maxRetries + 1` times for that
identity; and when a delivery failure happens with the retry budget
exhausted, the cached result for that identity has `success = false` and
carries the thrown `Error`'s message (`'Unknown error'` for a non-`Error`
throw) — a string that is non-empty exactly when the thrown message is. -/
theorem c1_retry_bound :
    (∀ (proc : Nat → Notification → ProcResult) (now fuel : Nat)
        (st : QState) (i : String),
      occL i st.queue = 1 → setHas st.processedIds i = false →
      cnt i st.procLog = 0 → mapGet st.retryCounts i = 0 →
      cnt i (drainAux proc now fuel st).procLog ≤ maxRetries + 1)
    ∧ (∀ (proc : Nat → Notification → ProcResult) (now : Nat) (st : QState)
        (n : Notification) (rest : List Notification) (m : Option String),
      st.queue = n :: rest → setHas st.processedIds n.id = false →
      proc st.procLog.length n = ProcResult.err m →
      ¬ mapGet st.retryCounts n.id < maxRetries →
      getResult (processOne proc now st) n.id =
        some { success := false, notificationId := n.id,
               timestamp := now, error := some (errString m) }) := by
  constructor
  · intro proc now fuel st i h1 h2 h3 h4
    have hinv : prOneInv i st :=
      Or.inl ⟨h1, h2, by rw [h3, h4], by rw [h4]; exact Nat.zero_le _⟩
    have h' := drainAux_preserves_inv proc now i fuel st hinv
    rcases h' with ⟨_, _, hcnt, hbound⟩ | ⟨_, hcnt⟩
    · rw [hcnt]; omega
    · exact hcnt
  · intro proc now st n rest m hq hp hpr hlt
    have hstep : processOne proc now st =
        { queue := rest, processedIds := setInsert st.processedIds n.id,
          retryCounts := mapDel st.retryCounts n.id,
          resultCache := cacheResult now st.resultCache n.id
            { success := false, notificationId := n.id,
              timestamp := now, error := some (errString m) },
          notifLog := st.notifLog ++
            [{ success := false, notificationId := n.id,
               timestamp := now, error := some (errString m) }],
          procLog := st.procLog ++ [n.id] } := by
      simp [processOne, hq, hp, hpr, hlt]
    rw [hstep]
    unfold getResult
    rw [mapFind_cacheResult_self]

theorem c1_retry_bound_witness :
    cnt "n1" (drainAux procThrowEmpty 0 4 stOne).procLog ≤ maxRetries + 1 ∧
    getResult (processOne procThrowEmpty 0 stExh) "n1" =
      some { success := false, notificationId := "n1",
             timestamp := 0, error := some (errString (some "")) } :=
  ⟨c1_retry_bound.1 procThrowEmpty 0 4 stOne "n1"
      (by decide) (by decide) (by decide) (by decide),
   c1_retry_bound.2 procThrowEmpty 0 stExh n1 [] (some "")
      rfl rfl rfl (by decide)⟩

/-- C2 counterexample: with a delivery function that returns `false` (never
throws), a submitted notification is NOT retried — the processor is invoked
exactly once, no retry counter is created, and a terminal result
`{success: false}` (without an error message) is recorded immediately.  This
refutes the claim that a `false` return is retried like a thrown
exception. -/
theorem c2_counterexample :
    (okState (enqueue procFalse 0 4 initState n1)).map
      (fun s => (s.procLog.length, s.retryCounts, getResult s "n1")) =
    some (1, [], some { success := false, notificationId := "n1",
                        timestamp := 0, error := none }) := by decide

/-- C2 (amended): a `false` return from the delivery function is recorded
immediately as a terminal result with `success = false` and no error string;
the item is not re-enqueued, no retry counter is touched, and the identity
stays owned.  Only thrown exceptions take the retry path. -/
theorem c2_false_is_terminal
    (proc : Nat → Notification → ProcResult) (now : Nat) (st : QState)
    (n : Notification) (rest : List Notification) (b : Bool)
    (hq : st.queue = n :: rest)
    (hp : setHas st.processedIds n.id = false)
    (hpr : proc st.procLog.length n = ProcResult.ok b) :
    (processOne proc now st).queue = rest ∧
    (processOne proc now st).retryCounts = st.retryCounts ∧
    setHas (processOne proc now st).processedIds n.id = true ∧
    getResult (processOne proc now st) n.id =
      some { success := b, notificationId := n.id,
             timestamp := now, error := none } ∧
    (processOne proc now st).notifLog = st.notifLog ++
      [{ success := b, notificationId := n.id,
         timestamp := now, error := none }] := by
  have hstep : processOne proc now st =
      { queue := rest, processedIds := setInsert st.processedIds n.id,
        retryCounts := st.retryCounts,
        resultCache := cacheResult now st.resultCache n.id
          { success := b, notificationId := n.id,
            timestamp := now, error := none },
        notifLog := st.notifLog ++
          [{ success := b, notificationId := n.id,
             timestamp := now, error := none }],
        procLog := st.procLog ++ [n.id] } := by
    simp [processOne, hq, hp, hpr]
  rw [hstep]
  refine ⟨rfl, rfl, setHas_insert_self _ _, ?_, rfl⟩
  unfold getResult
  rw [mapFind_cacheResult_self]

theorem c2_false_is_terminal_witness :
    (processOne procFalse 0 stOne).queue = [] ∧
    (processOne procFalse 0 stOne).retryCounts = stOne.retryCounts ∧
    setHas (processOne procFalse 0 stOne).processedIds "n1" = true ∧
    getResult (processOne procFalse 0 stOne) "n1" =
      some { success := false, notificationId := "n1",
             timestamp := 0, error := none } ∧
    (processOne procFalse 0 stOne).notifLog = stOne.notifLog ++
      [{ success := false, notificationId := "n1",
         timestamp := 0, error := none }] :=
  c2_false_is_terminal procFalse 0 stOne n1 [] false rfl rfl rfl

/-- C6 counterexample: a delivery function that throws once and then
succeeds leaves `n1` with a terminal SUCCESS result while its retry-counter
entry `("n1", 1)` is still present — refuting the claim that the counter is
removed on every terminal outcome. -/
theorem c6_counterexample :
    (okState (enqueue procOnceThenOk 0 4 initState n1)).map
      (fun s => (mapFind s.retryCounts "n1",
                 (getResult s "n1").map (fun r => r.success))) =
    some (some 1, some true) := by decide

/-- C6 (amended): the retry-counter entry of an identity is removed on
terminal failure (retries exhausted), but on terminal success the code does
not remove it — the success path leaves the whole retry-counter map
untouched, so an identity that succeeded after at least one retry keeps a
stale entry. -/
theorem c6_retry_counter_lifecycle :
    (∀ (proc : Nat → Notification → ProcResult) (now : Nat) (st : QState)
        (n : Notification) (rest : List Notification) (m : Option String),
      st.queue = n :: rest → setHas st.processedIds n.id = false →
      proc st.procLog.length n = ProcResult.err m →
      ¬ mapGet st.retryCounts n.id < maxRetries →
      mapFind (processOne proc now st).retryCounts n.id = none)
    ∧ (∀ (proc : Nat → Notification → ProcResult) (now : Nat) (st : QState)
        (n : Notification) (rest : List Notification) (b : Bool),
      st.queue = n :: rest → setHas st.processedIds n.id = false →
      proc st.procLog.length n = ProcResult.ok b →
      (processOne proc now st).retryCounts = st.retryCounts) := by
  constructor
  · intro proc now st n rest m hq hp hpr hlt
    have hstep : (processOne proc now st).retryCounts =
        mapDel st.retryCounts n.id := by
      simp [processOne, hq, hp, hpr, hlt]
    rw [hstep]
    exact mapFind_del_self _ _
  · intro proc now st n rest b hq hp hpr
    simp [processOne, hq, hp, hpr]

theorem c6_retry_counter_lifecycle_witness :
    mapFind (processOne procThrowEmpty 0 stExh).retryCounts "n1" = none ∧
    (processOne procOk 0 stOne).retryCounts = stOne.retryCounts :=
  ⟨c6_retry_counter_lifecycle.1 procThrowEmpty 0 stExh n1 [] (some "")
      rfl rfl rfl (by decide),
   c6_retry_counter_lifecycle.2 procOk 0 stOne n1 [] true rfl rfl rfl⟩

/-- C8: on a delivery failure with attempts remaining the queue increments
the identity's retry counter, releases ownership and re-enqueues the item at
the tail; and the spec scenario holds: submitting `n1` with a delivery
function that fails twice then succeeds ends with `getResult("n1")`
successful and the delivery function invoked exactly 3 times. -/
theorem c8_retry_release_tail :
    (∀ (proc : Nat → Notification → ProcResult) (now : Nat) (st : QState)
        (n : Notification) (rest : List Notification) (m : Option String),
      st.queue = n :: rest → setHas st.processedIds n.id = false →
      proc st.procLog.length n = ProcResult.err m →
      mapGet st.retryCounts n.id < maxRetries →
      (processOne proc now st).queue = rest ++ [n] ∧
      mapGet (processOne proc now st).retryCounts n.id =
        mapGet st.retryCounts n.id + 1 ∧
      setHas (processOne proc now st).processedIds n.id = false)
    ∧ (okState (enqueue procFailTwice 0 4 initState n1)).map
        (fun s => (s.procLog.length,
                   (getResult s "n1").map (fun r => r.success))) =
      some (3, some true) := by
  constructor
  · intro proc now st n rest m hq hp hpr hlt
    have hstep : processOne proc now st =
        { queue := rest ++ [n],
          processedIds := setErase (setInsert st.processedIds n.id) n.id,
          retryCounts :=
            mapSet st.retryCounts n.id (mapGet st.retryCounts n.id + 1),
          resultCache := st.resultCache,
          notifLog := st.notifLog,
          procLog := st.procLog ++ [n.id] } := by
      simp [processOne, hq, hp, hpr, hlt]
    rw [hstep]
    exact ⟨rfl, mapGet_set_self _ _ _, setHas_erase_self _ _⟩
  · decide

theorem c8_retry_release_tail_witness :
    (processOne procFailTwice 0 stOne).queue = [] ++ [n1] ∧
    mapGet (processOne procFailTwice 0 stOne).retryCounts "n1" =
      mapGet stOne.retryCounts "n1" + 1 ∧
    setHas (processOne procFailTwice 0 stOne).processedIds "n1" = false :=
  c8_retry_release_tail.1 procFailTwice 0 stOne n1 [] (some "delivery failed")
    rfl rfl rfl (by decide)

/-- C10: `clearCache` empties the result cache AND the processed-identity
set AND the retry-counter map (leaving the pending queue and the listener
schedule untouched); consequently an identity that already reached a
terminal outcome can be submitted and delivered again after `clearCache`,
while without it the second submission is a no-op. -/
theorem c10_clearCache_resets_dedup :
    (∀ st : QState,
      (clearCache st).resultCache = [] ∧
      (clearCache st).processedIds = [] ∧
      (clearCache st).retryCounts = [] ∧
      (clearCache st).queue = st.queue ∧
      (clearCache st).notifLog = st.notifLog)
    ∧ (okState (enqueue procOk 0 4 initState n1)).map (fun s =>
        ((okState (enqueue procOk 0 4 s n1)).map (fun s2 => s2.procLog),
         (okState (enqueue procOk 0 4 (clearCache s) n1)).map
           (fun s3 => s3.procLog))) =
      some (some ["n1"], some ["n1", "n1"]) := by
  constructor
  · intro st
    exact ⟨rfl, rfl, rfl, rfl, rfl⟩
  · decide

/-- C3: submitting an identity that is already in the processed set is a
silent no-op (the call succeeds and changes nothing), and two submissions of
the same valid identity from a clean state leave exactly one cached terminal
result and exactly one scheduled listener notification for that identity. -/
theorem c3_idempotent_submission :
    (∀ (proc : Nat → Notification → ProcResult) (now fuel : Nat)
        (st : QState) (n : Notification),
      n.id ≠ "" → n.userId ≠ "" → n.message ≠ "" →
      setHas st.processedIds n.id = true →
      enqueue proc now fuel st n = Except.ok st)
    ∧ (∀ (proc : Nat → Notification → ProcResult) (now fuel : Nat)
        (st : QState) (n : Notification),
      n.id ≠ "" → n.userId ≠ "" → n.message ≠ "" →
      st.queue = [] → setHas st.processedIds n.id = false →
      mapGet st.retryCounts n.id = 0 →
      mapFind st.resultCache n.id = none →
      st.resultCache.length < MAX_CACHE_SIZE →
      nidCount n.id st.notifLog = 0 →
      maxRetries + 1 ≤ fuel →
      ∃ st', enqueue proc now fuel st n = Except.ok st' ∧
        enqueue proc now fuel st' n = Except.ok st' ∧
        keyCount n.id st'.resultCache = 1 ∧
        nidCount n.id st'.notifLog = 1) := by
  constructor
  · intro proc now fuel st n h1 h2 h3 hp
    unfold enqueue
    rw [if_neg (by simp [h1, h2, h3]), if_pos hp]
  · intro proc now fuel st n h1 h2 h3 hq hp hr hc hlen hn hfuel
    have hval : ¬ (n.id = "" ∨ n.userId = "" ∨ n.message = "") := by
      simp [h1, h2, h3]
    obtain ⟨e, hdq, hdhas, hdcache, hdnid, hdlog⟩ :=
      drain_single proc now fuel 0 { st with queue := st.queue ++ [n] } n
        (by simp [hq]) hp hr (by omega) (by omega) hc hlen
    refine ⟨drainAux proc now fuel { st with queue := st.queue ++ [n] },
      ?_, ?_, ?_, ?_⟩
    · unfold enqueue
      rw [if_neg hval, if_neg (by simp [hp])]
    · unfold enqueue
      rw [if_neg hval, if_pos hdhas]
    · rw [hdcache, keyCount_append]
      have h0 : keyCount n.id st.resultCache = 0 :=
        keyCount_eq_zero_of_find_none _ _ hc
      simp [keyCount, h0]
    · rw [hdlog, nidCount_append]
      simp [nidCount, hdnid, hn]

theorem c3_idempotent_submission_witness :
    enqueue procOk 0 4 stHasN1 n1 = Except.ok stHasN1 ∧
    (∃ st', enqueue procOk 0 4 initState n1 = Except.ok st' ∧
      enqueue procOk 0 4 st' n1 = Except.ok st' ∧
      keyCount "n1" st'.resultCache = 1 ∧
      nidCount "n1" st'.notifLog = 1) :=
  ⟨c3_idempotent_submission.1 procOk 0 4 stHasN1 n1
      (by decide) (by decide) (by decide) rfl,
   c3_idempotent_submission.2 procOk 0 4 initState n1
      (by decide) (by decide) (by decide) rfl rfl rfl rfl
      (by decide) rfl (by decide)⟩

/-- C4: a submission of a valid fresh identity returns only after the drain
it triggered has completed: when `enqueue` returns without error the queue
has been drained and a terminal result for that identity is already
available through `getResult`. -/
theorem c4_submit_completes_drain
    (proc : Nat → Notification → ProcResult) (now fuel : Nat) (st : QState)
    (n : Notification)
    (h1 : n.id ≠ "") (h2 : n.userId ≠ "") (h3 : n.message ≠ "")
    (hq : st.queue = []) (hp : setHas st.processedIds n.id = false)
    (hk : mapGet st.retryCounts n.id ≤ maxRetries)
    (hc : mapFind st.resultCache n.id = none)
    (hlen : st.resultCache.length < MAX_CACHE_SIZE)
    (hfuel : maxRetries + 1 ≤ fuel) :
    ∃ st', enqueue proc now fuel st n = Except.ok st' ∧
      st'.queue = [] ∧
      ∃ r, getResult st' n.id = some r ∧ r.notificationId = n.id := by
  obtain ⟨e, hdq, hdhas, hdcache, hdnid, hdlog⟩ :=
    drain_single proc now fuel (mapGet st.retryCounts n.id)
      { st with queue := st.queue ++ [n] } n (by simp [hq]) hp rfl hk
      (by omega) hc hlen
  refine ⟨drainAux proc now fuel { st with queue := st.queue ++ [n] },
    ?_, hdq, e.result, ?_, hdnid⟩
  · unfold enqueue
    rw [if_neg (by simp [h1, h2, h3]), if_neg (by simp [hp])]
  · unfold getResult
    rw [hdcache, mapFind_append_right _ _ _ hc]

theorem c4_submit_completes_drain_witness :
    ∃ st', enqueue procOk 0 4 initState n1 = Except.ok st' ∧
      st'.queue = [] ∧
      ∃ r, getResult st' "n1" = some r ∧ r.notificationId = "n1" :=
  c4_submit_completes_drain procOk 0 4 initState n1 (by decide) (by decide)
    (by decide) rfl rfl (by decide) rfl (by decide) (by decide)

/-- Batch entry that passes the `enqueueBatch` guard (its id is nonempty)
but is invalid under the spec's `InvalidArgument` rule (its userId and
message are empty). -/
def badN : Notification :=
  { id := "a", userId := "", message := "",
    type := NotificationType.info, priority := 1, createdAt := 0 }

/-- C5 counterexample: `enqueueBatch` appends an entry whose `userId` and
`message` are empty — an entry that is invalid under the spec's
`InvalidArgument` rule (`submit` would reject it) — because its guard only
filters on a missing id.  This refutes the claim that the appended copy
contains only the valid entries. -/
theorem c5_counterexample :
    (enqueueBatchAppend initState [badN]).2.queue = [badN] ∧
    badN.userId = "" ∧ badN.message = "" := by decide

/-- C5 (amended): `enqueueBatch` leaves the caller's array untouched (it
sorts a spread copy) and appends to the pending list a stable-sorted copy of
the input — descending by priority, ties in arrival order — containing
exactly the entries with a nonempty id; entries merely missing `userId` or
`message` are NOT filtered out. -/
theorem c5_batch_sorted_copy (st : QState) (input : List Notification) :
    (enqueueBatchAppend st input).1 = input ∧
    (enqueueBatchAppend st input).2.queue =
      st.queue ++ keepValid (sortByPriority input) ∧
    List.Pairwise prDesc (keepValid (sortByPriority input)) ∧
    (∀ p : Int, prFilter p (keepValid (sortByPriority input)) =
      prFilter p (keepValid input)) ∧
    List.Perm (keepValid (sortByPriority input)) (keepValid input) ∧
    (∀ z, z ∈ keepValid input ↔ z ∈ input ∧ z.id ≠ "") := by
  refine ⟨rfl, rfl, ?_, ?_, ?_, ?_⟩
  · exact pairwise_keepValid _ (sortByPriority_pairwise input)
  · intro p
    rw [prFilter_keepValid, prFilter_keepValid, sortByPriority_stable]
  · exact keepValid_perm (sortByPriority_perm input)
  · intro z
    exact mem_keepValid z input

/-- Sample cache entry for the C7 witness. -/
def capEntry : CacheEntry :=
  { result := { success := true, notificationId := "k",
                timestamp := 0, error := none },
    timestamp := 0 }

/-- A cache tail that brings the sample cache exactly to capacity. -/
def capRest : List (String × CacheEntry) :=
  List.replicate (MAX_CACHE_SIZE - 1) ("k", capEntry)

/-- C7: the result cache never exceeds `MAX_CACHE_SIZE` — `cacheResult`
preserves the bound (given the reachability invariant that cached keys are
nonempty notification ids), an insert at capacity evicts the
oldest-inserted entry first, `cleanupCache` never grows the cache and only
ever removes entries older than the TTL, and every drain step preserves the
size bound. -/
theorem c7_cache_bounds :
    (∀ (now : Nat) (cache : List (String × CacheEntry)) (id : String)
        (r : NotificationResult),
      cache.length ≤ MAX_CACHE_SIZE → (∀ p ∈ cache, p.1 ≠ "") →
      (cacheResult now cache id r).length ≤ MAX_CACHE_SIZE)
    ∧ (∀ (now : Nat) (k : String) (e : CacheEntry)
        (rest : List (String × CacheEntry)) (id : String)
        (r : NotificationResult),
      k ≠ "" → MAX_CACHE_SIZE ≤ ((k, e) :: rest).length →
      cacheResult now ((k, e) :: rest) id r =
        mapSet rest id { result := r, timestamp := now })
    ∧ (∀ (now : Nat) (c : List (String × CacheEntry)),
      (cleanupCache now c).length ≤ c.length)
    ∧ (∀ (now : Nat) (c : List (String × CacheEntry)) (k : String)
        (e : CacheEntry),
      (k, e) ∈ c → (k, e) ∉ cleanupCache now c →
      CACHE_TTL_MS < now - e.timestamp)
    ∧ (∀ (proc : Nat → Notification → ProcResult) (now : Nat) (st : QState),
      st.resultCache.length ≤ MAX_CACHE_SIZE →
      (∀ p ∈ st.resultCache, p.1 ≠ "") →
      (processOne proc now st).resultCache.length ≤ MAX_CACHE_SIZE) :=
  ⟨fun now cache id r h1 h2 => cacheResult_length_le now cache id r h1 h2,
   fun now k e rest id r hk hcap =>
     cacheResult_at_capacity now k e rest id r hk hcap,
   fun now c => cleanupCache_length_le now c,
   fun now c k e hm hout => cleanupCache_removes_only_expired now k e c hm hout,
   fun proc now st h1 h2 => processOne_cache_length_le proc now st h1 h2⟩

theorem c7_cache_bounds_witness :
    (cacheResult 5 [("a", capEntry)] "b" capEntry.result).length ≤
      MAX_CACHE_SIZE ∧
    cacheResult 5 (("k", capEntry) :: capRest) "b" capEntry.result =
      mapSet capRest "b" { result := capEntry.result, timestamp := 5 } ∧
    CACHE_TTL_MS < (CACHE_TTL_MS + 1) - capEntry.timestamp ∧
    (processOne procOk 7 stOne).resultCache.length ≤ MAX_CACHE_SIZE :=
  ⟨c7_cache_bounds.1 5 [("a", capEntry)] "b" capEntry.result
      (by decide) (by decide),
   c7_cache_bounds.2.1 5 "k" capEntry capRest "b" capEntry.result
      (by decide)
      (by simp only [capRest, List.length_cons, List.length_replicate,
            MAX_CACHE_SIZE]
          omega),
   c7_cache_bounds.2.2.2.1 (CACHE_TTL_MS + 1) [("a", capEntry)] "a" capEntry
      (by decide) (by decide),
   c7_cache_bounds.2.2.2.2 procOk 7 stOne (by decide) (by decide)⟩

/-- User whose email fails the syntax check while id and email are present,
for the C9 witness. -/
def badEmailUser : User :=
  { id := "u1", email := "nope", name := "N",
    preferences := none, metadata := none }

/-- C9: `sendCriticalAlert` validates id/email presence and email syntax
first: called with a user whose id and email are present but whose email
fails the syntax check, it returns `{success: false, error: "Invalid email
address"}` with the email provider never invoked; and on every path the
caller-supplied user object is left unchanged. -/
theorem c9_critical_alert_validation :
    (∀ (send : String → String → String → SendOutcome) (u : User)
        (message nid : String) (now : Nat),
      u.id ≠ "" → u.email ≠ "" → emailRegexTest u.email = false →
      sendCriticalAlert send (some u) message nid now =
        ({ success := false, notificationId := nid, timestamp := now,
           error := some "Invalid email address" }, 0, some u))
    ∧ (∀ (send : String → String → String → SendOutcome)
        (user : Option User) (message nid : String) (now : Nat),
      (sendCriticalAlert send user message nid now).2.2 = user) := by
  constructor
  · intro send u message nid now h1 h2 h3
    simp [sendCriticalAlert, h1, h2, h3]
  · intro send user message nid now
    cases user with
    | none => rfl
    | some u =>
      unfold sendCriticalAlert
      by_cases h1 : u.id = "" ∨ u.email = ""
      · simp [h1]
      · by_cases h2 : emailRegexTest u.email = false
        · simp [h1, h2]
        · cases hs : send u.email "CRITICAL ALERT" message with
          | ok b => cases b <;> simp [h1, h2, hs]
          | err m => simp [h1, h2, hs]

theorem c9_critical_alert_validation_witness :
    sendCriticalAlert (fun _ _ _ => SendOutcome.ok true) (some badEmailUser)
      "msg" "id1" 0 =
      ({ success := false, notificationId := "id1", timestamp := 0,
         error := some "Invalid email address" }, 0, some badEmailUser) ∧
    (sendCriticalAlert (fun _ _ _ => SendOutcome.ok true) (some badEmailUser)
      "msg" "id1" 0).2.2 = some badEmailUser :=
  ⟨c9_critical_alert_validation.1 (fun _ _ _ => SendOutcome.ok true)
      badEmailUser "msg" "id1" 0 (by decide) (by decide) (by decide),
   c9_critical_alert_validation.2 (fun _ _ _ => SendOutcome.ok true)
      (some badEmailUser) "msg" "id1" 0⟩
